import Mathlib

/-!
Verification of the draw-and-guess game core: the `GameManager` round
manager (word pool, random selection, scoring, submit/skip lifecycle)
and the two historical variants of the `DrawingCanvas` component
(chalkboard background vs. white background).  JavaScript sources are
shallowly embedded: `Math.random()` is modelled as an injected rational
in `[0, 1)`, DOM side effects as an explicit effect list, the canvas
2D context as a record of issued render operations, and the pixel
buffer as a list of RGBA pixels with natural-number channels.
-/

/-- One RGBA pixel of the canvas buffer, as returned by
`ctx.getImageData` (each channel a byte value). -/
structure Pixel where
  r : ℕ
  g : ℕ
  b : ℕ
  a : ℕ
  deriving DecidableEq, Repr

/-- `DrawingCanvas.isEmpty`, chalkboard variant: every pixel must have
each of R, G, B within 5 of the chalkboard background `#2d3436`
(45, 52, 54); the JS loop returns `false` on the first channel whose
absolute deviation exceeds 5, else `true`. -/
def isEmptyChalk (data : List Pixel) : Bool :=
  data.all (fun p =>
    ((p.r : ℤ) - 45).natAbs ≤ 5 &&
    ((p.g : ℤ) - 52).natAbs ≤ 5 &&
    ((p.b : ℤ) - 54).natAbs ≤ 5)

/-- `DrawingCanvas.isEmpty`, white-background variant: every pixel must
have R, G and B exactly 255; the JS loop returns `false` on the first
channel different from 255, else `true`. -/
def isEmptyWhite (data : List Pixel) : Bool :=
  data.all (fun p => p.r == 255 && p.g == 255 && p.b == 255)

/-- Modelled from the spec: "returns true iff every pixel's R/G/B
channel is within a fixed tolerance (±5) of the background color's
R/G/B".  Spec-side predicate used to compare the two `isEmpty`
implementations against the specified tolerance semantics. -/
def specWithinTol5 (bgR bgG bgB : ℕ) (data : List Pixel) : Prop :=
  ∀ p ∈ data,
    ((p.r : ℤ) - bgR).natAbs ≤ 5 ∧
    ((p.g : ℤ) - bgG).natAbs ≤ 5 ∧
    ((p.b : ℤ) - bgB).natAbs ≤ 5

instance (bgR bgG bgB : ℕ) (data : List Pixel) :
    Decidable (specWithinTol5 bgR bgG bgB data) := by
  unfold specWithinTol5; infer_instance

/-- The canvas's on-screen bounding rectangle, as returned by
`getBoundingClientRect()`. -/
structure Rect where
  left : ℚ
  top : ℚ
  width : ℚ
  height : ℚ
  deriving DecidableEq, Repr

/-- One rendering command issued to the 2D context: a stroked path
(with the style and width in force at the `stroke()` call) or a filled
rectangle.  The raster image is the fold of these commands, so "no
pixel is mutated" is "no command is appended". -/
inductive RenderOp where
  | strokePath : String → ℚ → List (ℚ × ℚ) → RenderOp
  | fillRect : String → ℚ → ℚ → ℚ → ℚ → RenderOp
  deriving DecidableEq, Repr

/-- The mutable part of the 2D context: current stroke style, line
width, fill style, the open path, and the list of render commands
issued so far. -/
structure Ctx where
  strokeStyle : String
  lineWidth : ℚ
  fillStyle : String
  path : List (ℚ × ℚ)
  rendered : List RenderOp
  deriving DecidableEq, Repr

/-- The `DrawingCanvas` component state: canvas pixel dimensions,
drawing flag, current color, brush size, and the 2D context. -/
structure DrawingCanvas where
  width : ℚ
  height : ℚ
  isDrawing : Bool
  currentColor : String
  brushSize : ℚ
  ctx : Ctx
  deriving DecidableEq, Repr

/-- `getPosition`, chalkboard (scaled) variant: viewport coordinates
are offset by the bounding rectangle's origin and scaled by
pixel-size / on-screen-size. -/
def getPositionChalk (dc : DrawingCanvas) (rect : Rect) (ex ey : ℚ) : ℚ × ℚ :=
  ((ex - rect.left) * (dc.width / rect.width),
   (ey - rect.top) * (dc.height / rect.height))

/-- `getPosition`, white-background (offset-only) variant: viewport
coordinates are only offset by the bounding rectangle's origin. -/
def getPositionWhite (_dc : DrawingCanvas) (rect : Rect) (ex ey : ℚ) : ℚ × ℚ :=
  (ex - rect.left, ey - rect.top)

/-- Modelled from the spec: the specified coordinate transform
`x = (eventX - rect.left) * (pixelWidth / rect.width)`,
`y = (eventY - rect.top) * (pixelHeight / rect.height)`.  Spec-side
definition used to compare the two `getPosition` variants against. -/
def specScaledPosition (pw ph : ℚ) (rect : Rect) (ex ey : ℚ) : ℚ × ℚ :=
  ((ex - rect.left) * (pw / rect.width), (ey - rect.top) * (ph / rect.height))

/-- `draw`, chalkboard variant: no-op unless `isDrawing`; otherwise
computes the (scaled) position, sets `strokeStyle` and `lineWidth`
from the component state, extends the path (`lineTo`) and strokes the
current path (`stroke`). -/
def drawChalk (dc : DrawingCanvas) (rect : Rect) (ex ey : ℚ) : DrawingCanvas :=
  if !dc.isDrawing then dc
  else
    let pos := getPositionChalk dc rect ex ey
    { dc with ctx :=
      { dc.ctx with
        strokeStyle := dc.currentColor
        lineWidth := dc.brushSize
        path := dc.ctx.path ++ [pos]
        rendered := dc.ctx.rendered ++
          [RenderOp.strokePath dc.currentColor dc.brushSize (dc.ctx.path ++ [pos])] } }

/-- `draw`, white-background variant: identical control flow, but the
position is computed by the offset-only transform. -/
def drawWhite (dc : DrawingCanvas) (rect : Rect) (ex ey : ℚ) : DrawingCanvas :=
  if !dc.isDrawing then dc
  else
    let pos := getPositionWhite dc rect ex ey
    { dc with ctx :=
      { dc.ctx with
        strokeStyle := dc.currentColor
        lineWidth := dc.brushSize
        path := dc.ctx.path ++ [pos]
        rendered := dc.ctx.rendered ++
          [RenderOp.strokePath dc.currentColor dc.brushSize (dc.ctx.path ++ [pos])] } }

/-- `startDrawing` (both variants): sets `isDrawing`, opens a fresh
path and moves its cursor to the event position (chalk transform shown;
only the flag matters for the proved claims). -/
def startDrawingChalk (dc : DrawingCanvas) (rect : Rect) (ex ey : ℚ) : DrawingCanvas :=
  let pos := getPositionChalk dc rect ex ey
  { dc with isDrawing := true, ctx := { dc.ctx with path := [pos] } }

/-- `stopDrawing` (both variants): clears `isDrawing` and opens a
fresh empty path. -/
def stopDrawing (dc : DrawingCanvas) : DrawingCanvas :=
  { dc with isDrawing := false, ctx := { dc.ctx with path := [] } }

/-- `Math.floor(q * len)` as used to index JS arrays, for a random
draw `q` modelling `Math.random()`. -/
def jsRandIdx (q : ℚ) (len : ℕ) : ℕ :=
  (⌊q * (len : ℚ)⌋).toNat

/-- The word pool, one ordered list of words per difficulty tier. -/
structure WordList where
  easy : List String
  medium : List String
  hard : List String
  deriving DecidableEq, Repr

/-- `GameManager.initWordList`: the fixed demo pool, ten words per
tier. -/
def initWordList : WordList :=
  { easy := ["太阳", "月亮", "星星", "房子", "树", "花", "猫", "狗", "鱼", "鸟"]
    medium := ["汽车", "飞机", "自行车", "电脑", "手机", "书", "眼镜", "雨伞", "笑脸", "爱心"]
    hard := ["彩虹", "蝴蝶", "蛋糕", "火箭", "城堡", "钢琴", "足球", "生日", "礼物", "风车"] }

/-- `[...easy, ...medium, ...hard]`: all tiers flattened. -/
def allWordsOf (wl : WordList) : List String :=
  wl.easy ++ wl.medium ++ wl.hard

/-- The flattened fixed pool of the shipped `initWordList`. -/
def allWords : List String :=
  allWordsOf initWordList

/-- `allWords.filter(word => !usedWords.has(word))`. -/
def availableWords (wl : WordList) (used : Finset String) : List String :=
  (allWordsOf wl).filter (fun w => decide (w ∉ used))

/-- `GameManager.getRandomWord`, with the self-recursion made explicit
through a fuel argument (`none` = fuel exhausted): if every word is
used, clear `usedWords` and retry; otherwise pick index
`Math.floor(random * length)` of the available words, add the pick to
`usedWords` and return it. -/
def getRandomWordFuel (wl : WordList) :
    ℕ → Finset String → ℚ → Option (String × Finset String)
  | 0, _, _ => none
  | fuel + 1, used, q =>
    let avail := availableWords wl used
    if avail.length = 0 then
      getRandomWordFuel wl fuel ∅ q
    else
      let w := avail.getD (jsRandIdx q avail.length) ""
      some (w, insert w used)

/-- Total wrapper of `getRandomWordFuel`: fuel 2 is proved sufficient
for every state (`getRandomWord_termination`). -/
def getRandomWord (wl : WordList) (used : Finset String) (q : ℚ) :
    String × Finset String :=
  (getRandomWordFuel wl 2 used q).getD ("", used)

/-- Iterated `getRandomWord` over a list of random draws, returning
the picked words in order and the final used-word set. -/
def runSelect (wl : WordList) : List ℚ → Finset String → List String × Finset String
  | [], used => ([], used)
  | q :: qs, used =>
    let pick := getRandomWord wl used q
    let rest := runSelect wl qs pick.2
    (pick.1 :: rest.1, rest.2)

/-- One scoring outcome: `success`, `points`, user-facing `message`. -/
structure Evaluation where
  success : Bool
  points : ℤ
  message : String
  deriving DecidableEq, Repr

/-- The fixed outcome table of `GameManager.evaluateDrawing`. -/
def scoresTable : List Evaluation :=
  [{ success := true, points := 10, message := "画得太棒了！一眼就认出来了！" },
   { success := true, points := 7, message := "画得不错，能看出是什么！" },
   { success := true, points := 5, message := "还可以，勉强能认出来！" },
   { success := false, points := 2, message := "嗯...这是什么来着？" }]

/-- `GameManager.evaluateDrawing`: a pseudo-random pick
`scores[Math.floor(random * scores.length)]` from the fixed table (the
`getD` default models JS out-of-range `undefined` and is unreachable
for a random draw in `[0, 1)`). -/
def evaluateDrawing (q : ℚ) : Evaluation :=
  scoresTable.getD (jsRandIdx q scoresTable.length)
    { success := false, points := 0, message := "" }

/-- DOM side effects of the round manager, reified: `alert`, score
display refresh, result presentation, word display refresh, result
hiding, and the `canvas.clear()` it triggers. -/
inductive Effect where
  | alert : String → Effect
  | updateScore : ℤ → Effect
  | showResult : Evaluation → Effect
  | updateWordDisplay : Effect
  | hideResult : Effect
  | clearCanvas : Effect
  deriving DecidableEq, Repr

/-- The `GameManager` fields (the canvas collaborator is passed to the
operations that consult it). -/
structure GameManager where
  currentWord : Option String
  score : ℤ
  wordList : WordList
  usedWords : Finset String
  deriving DecidableEq

/-- The `GameManager` constructor: no current word, score 0, the fixed
pool, empty used set. -/
def GameManager.init : GameManager :=
  { currentWord := none, score := 0, wordList := initWordList, usedWords := ∅ }

/-- The `alert` text of the no-active-round condition. -/
def noActiveRoundMsg : String := "请先点击\"下一题\"开始游戏！"

/-- The `alert` text of the empty-canvas condition. -/
def emptyCanvasMsg : String := "画板是空的，请先画点什么吧！"

/-- `GameManager.submitAnswer`, with `canvasEmpty` the result of
`this.canvas.isEmpty()` and `q` the random draw consumed by
`evaluateDrawing`: early `alert` return when no current word or the
canvas is empty; otherwise score the drawing once, add its points to
`score`, refresh the score display and show the result. -/
def submitAnswer (st : GameManager) (canvasEmpty : Bool) (q : ℚ) :
    GameManager × List Effect :=
  match st.currentWord with
  | none => (st, [Effect.alert noActiveRoundMsg])
  | some _ =>
    if canvasEmpty then
      (st, [Effect.alert emptyCanvasMsg])
    else
      let evaluation := evaluateDrawing q
      ({ st with score := st.score + evaluation.points },
       [Effect.updateScore (st.score + evaluation.points),
        Effect.showResult evaluation])

/-- `GameManager.submitAnswer` wired to the chalkboard canvas: the
emptiness flag is computed from the pixel buffer by `isEmptyChalk`. -/
def submitAnswerOnCanvas (st : GameManager) (data : List Pixel) (q : ℚ) :
    GameManager × List Effect :=
  submitAnswer st (isEmptyChalk data) q

/-- `GameManager.skipWord`: `alert` when no current word; otherwise
show a failed result with 0 points whose message reveals the word. -/
def skipWord (st : GameManager) : GameManager × List Effect :=
  match st.currentWord with
  | none => (st, [Effect.alert noActiveRoundMsg])
  | some w =>
    (st, [Effect.showResult
      { success := false, points := 0, message := "正确答案是: " ++ w }])

/-- `GameManager.nextWord`: draw a fresh word, clear the canvas,
refresh the word display and hide any shown result. -/
def nextWord (st : GameManager) (q : ℚ) : GameManager × List Effect :=
  let pick := getRandomWord st.wordList st.usedWords q
  ({ st with currentWord := some pick.1, usedWords := pick.2 },
   [Effect.clearCanvas, Effect.updateWordDisplay, Effect.hideResult])

/-- One externally triggerable round-manager operation, with its
injected inputs. -/
inductive GMOp where
  | next : ℚ → GMOp
  | submit : Bool → ℚ → GMOp
  | skip : GMOp
  deriving DecidableEq

/-- State transition of one operation (effects discarded). -/
def stepOp (st : GameManager) : GMOp → GameManager
  | GMOp.next q => (nextWord st q).1
  | GMOp.submit ce q => (submitAnswer st ce q).1
  | GMOp.skip => (skipWord st).1

/-- Iterated operations. -/
def runOps (st : GameManager) : List GMOp → GameManager
  | [] => st
  | op :: ops => runOps (stepOp st op) ops


/-- The fixed pool as a finite set. -/
def allWordsFin : Finset String := allWords.toFinset

/-- A round manager with an active word, used to exercise the
guard-passing branches at concrete inputs. -/
def gmActive : GameManager :=
  { GameManager.init with currentWord := some "猫" }

/-- An idle drawing surface, used to exercise the no-op branch at a
concrete input. -/
def dcIdle : DrawingCanvas :=
  { width := 800, height := 600, isDrawing := false, currentColor := "#ffffff",
    brushSize := 3,
    ctx := { strokeStyle := "#ffffff", lineWidth := 3, fillStyle := "#2d3436",
             path := [], rendered := [] } }

/-- A concrete white-background drawing surface (600 × 400). -/
def dcWhite : DrawingCanvas :=
  { width := 600, height := 400, isDrawing := false, currentColor := "#000000",
    brushSize := 3,
    ctx := { strokeStyle := "#000000", lineWidth := 3, fillStyle := "#ffffff",
             path := [], rendered := [] } }

/-- A `getD` lookup at an in-bounds index is a member of the list. -/
theorem getD_mem_of_lt {α : Type} {l : List α} {i : ℕ} {d : α}
    (h : i < l.length) : l.getD i d ∈ l := by
  rw [List.getD_eq_getElem?_getD, List.getElem?_eq_getElem h]
  exact List.get_mem l i h

/-- `Math.floor(q * len)` lands strictly below `len` for a random draw
in `[0, 1)` and a positive length. -/
theorem jsRandIdx_lt (q : ℚ) (len : ℕ) (h0 : 0 ≤ q) (h1 : q < 1)
    (hlen : 0 < len) : jsRandIdx q len < len := by
  unfold jsRandIdx
  have hcast : (0 : ℚ) < (len : ℚ) := by exact_mod_cast hlen
  have hmul : q * (len : ℚ) < (len : ℚ) := by
    calc q * (len : ℚ) < 1 * (len : ℚ) := mul_lt_mul_of_pos_right h1 hcast
      _ = (len : ℚ) := one_mul _
  have hfl : ⌊q * (len : ℚ)⌋ < (len : ℤ) := Int.floor_lt.mpr (by exact_mod_cast hmul)
  have hnn : (0 : ℤ) ≤ ⌊q * (len : ℚ)⌋ :=
    Int.floor_nonneg.mpr (mul_nonneg h0 (le_of_lt hcast))
  omega

/-- Claim C1: `submitAnswer` with no current word only alerts the
no-active-round message and changes nothing; with a current word but an
empty canvas it only alerts the empty-canvas message and changes
nothing; otherwise it scores the drawing once, adds the returned points
to `score`, refreshes the score display and shows exactly that
evaluation.  Being a total function of the embedded state, it throws in
none of these cases. -/
theorem submitAnswer_cases (st : GameManager) (canvasEmpty : Bool) (q : ℚ) :
    (st.currentWord = none →
      submitAnswer st canvasEmpty q = (st, [Effect.alert noActiveRoundMsg])) ∧
    (st.currentWord ≠ none → canvasEmpty = true →
      submitAnswer st canvasEmpty q = (st, [Effect.alert emptyCanvasMsg])) ∧
    (st.currentWord ≠ none → canvasEmpty = false →
      submitAnswer st canvasEmpty q =
        ({ st with score := st.score + (evaluateDrawing q).points },
         [Effect.updateScore (st.score + (evaluateDrawing q).points),
          Effect.showResult (evaluateDrawing q)])) := by
  refine ⟨fun h => by simp [submitAnswer, h], fun h hce => ?_, fun h hce => ?_⟩
  · cases hw : st.currentWord with
    | none => exact absurd hw h
    | some w => subst hce; simp [submitAnswer, hw]
  · cases hw : st.currentWord with
    | none => exact absurd hw h
    | some w => subst hce; simp [submitAnswer, hw]

/-- Witness for C1: all three branches at concrete states. -/
theorem submitAnswer_cases_witness :
    (submitAnswer GameManager.init false 0 =
      (GameManager.init, [Effect.alert noActiveRoundMsg])) ∧
    (submitAnswer gmActive true 0 = (gmActive, [Effect.alert emptyCanvasMsg])) ∧
    (submitAnswer gmActive false 0 =
      ({ gmActive with score := gmActive.score + (evaluateDrawing 0).points },
       [Effect.updateScore (gmActive.score + (evaluateDrawing 0).points),
        Effect.showResult (evaluateDrawing 0)])) :=
  ⟨(submitAnswer_cases GameManager.init false 0).1 rfl,
   (submitAnswer_cases gmActive true 0).2.1 (by simp [gmActive]) rfl,
   (submitAnswer_cases gmActive false 0).2.2 (by simp [gmActive]) rfl⟩

/-- Claim C5: `skipWord` with no current word only alerts the
no-active-round message; with current word `w` it shows a result with
`success := false`, `points := 0` and a message containing `w`; in
every case the manager state — in particular `score` — is unchanged. -/
theorem skipWord_cases (st : GameManager) :
    (st.currentWord = none → skipWord st = (st, [Effect.alert noActiveRoundMsg])) ∧
    (∀ w, st.currentWord = some w →
      skipWord st = (st, [Effect.showResult
        { success := false, points := 0, message := "正确答案是: " ++ w }])) ∧
    (∀ w, st.currentWord = some w →
      ∃ before after, "正确答案是: " ++ w = before ++ (w ++ after)) ∧
    (skipWord st).1 = st := by
  refine ⟨fun h => by simp [skipWord, h], fun w hw => by simp [skipWord, hw],
    fun w hw => ⟨"正确答案是: ", "", by simp⟩, ?_⟩
  cases hw : st.currentWord <;> simp [skipWord, hw]

/-- Witness for C5: both branches at concrete states. -/
theorem skipWord_cases_witness :
    (skipWord GameManager.init =
      (GameManager.init, [Effect.alert noActiveRoundMsg])) ∧
    (skipWord gmActive = (gmActive, [Effect.showResult
      { success := false, points := 0, message := "正确答案是: " ++ "猫" }])) ∧
    (∃ before after, "正确答案是: " ++ "猫" = before ++ ("猫" ++ after)) :=
  ⟨(skipWord_cases GameManager.init).1 rfl,
   (skipWord_cases gmActive).2.1 "猫" rfl,
   (skipWord_cases gmActive).2.2.1 "猫" rfl⟩

/-- Claim C8: in the `Idle` state (`isDrawing = false`), `draw` of
either variant returns the state unchanged — no render command is
issued, no context or component field is touched — and, being a total
function, it throws nothing. -/
theorem draw_idle_noop (dc : DrawingCanvas) (rect : Rect) (ex ey : ℚ)
    (h : dc.isDrawing = false) :
    drawChalk dc rect ex ey = dc ∧ drawWhite dc rect ex ey = dc := by
  constructor <;> simp [drawChalk, drawWhite, h]

/-- Witness for C8: the idle surface at a concrete event. -/
theorem draw_idle_noop_witness :
    drawChalk dcIdle ⟨0, 0, 800, 600⟩ 10 20 = dcIdle ∧
    drawWhite dcIdle ⟨0, 0, 800, 600⟩ 10 20 = dcIdle :=
  draw_idle_noop dcIdle ⟨0, 0, 800, 600⟩ 10 20 rfl

/-- Claim C10: the points added and the whole result of `submitAnswer`
do not depend on the drawing content — two runs with the same manager
state and random draw, over any two pixel buffers that are both
non-empty, produce identical states and effects; the buffer is
consulted only through `isEmpty`. -/
theorem submitAnswer_pixel_independent (st : GameManager) (q : ℚ)
    (data1 data2 : List Pixel)
    (h1 : isEmptyChalk data1 = false) (h2 : isEmptyChalk data2 = false) :
    submitAnswerOnCanvas st data1 q = submitAnswerOnCanvas st data2 q := by
  unfold submitAnswerOnCanvas
  rw [h1, h2]

/-- Witness for C10: two visibly different non-empty buffers. -/
theorem submitAnswer_pixel_independent_witness :
    submitAnswerOnCanvas gmActive [⟨255, 255, 255, 255⟩] 0 =
      submitAnswerOnCanvas gmActive [⟨0, 0, 0, 255⟩] 0 :=
  submitAnswer_pixel_independent gmActive 0 [⟨255, 255, 255, 255⟩]
    [⟨0, 0, 0, 255⟩] (by decide) (by decide)

/-- Claim C6: `evaluateDrawing` on any random draw in `[0, 1)` returns
an element of the fixed four-outcome table, whose (success, points)
column is exactly (true,10), (true,7), (true,5), (false,2); the
returned message is non-empty, the returned points are never negative,
and two draws exhibiting two distinct points values exist. -/
theorem evaluateDrawing_outcomes (q : ℚ) (h0 : 0 ≤ q) (h1 : q < 1) :
    evaluateDrawing q ∈ scoresTable ∧
    scoresTable.map (fun e => (e.success, e.points)) =
      [(true, 10), (true, 7), (true, 5), (false, 2)] ∧
    (evaluateDrawing q).message ≠ "" ∧
    0 ≤ (evaluateDrawing q).points ∧
    (evaluateDrawing 0).points ≠ (evaluateDrawing (3 / 4 : ℚ)).points := by
  have hlen : 0 < scoresTable.length := by decide
  have hmem : evaluateDrawing q ∈ scoresTable :=
    getD_mem_of_lt (jsRandIdx_lt q scoresTable.length h0 h1 hlen)
  have htab : ∀ e ∈ scoresTable, e.message ≠ "" ∧ 0 ≤ e.points := by decide
  have h34 : (evaluateDrawing (3 / 4 : ℚ)).points = 2 := by
    have h : jsRandIdx (3 / 4) 4 = 3 := by
      norm_num [jsRandIdx]
      decide
    simp [evaluateDrawing, scoresTable, h]
  have h00 : (evaluateDrawing 0).points = 10 := by
    norm_num [evaluateDrawing, jsRandIdx, scoresTable]
  exact ⟨hmem, by decide, (htab _ hmem).1, (htab _ hmem).2, by rw [h00, h34]; decide⟩

/-- Witness for C6: the outcome facts at the concrete draw 1/2. -/
theorem evaluateDrawing_outcomes_witness :
    evaluateDrawing (1 / 2) ∈ scoresTable ∧
    scoresTable.map (fun e => (e.success, e.points)) =
      [(true, 10), (true, 7), (true, 5), (false, 2)] ∧
    (evaluateDrawing (1 / 2)).message ≠ "" ∧
    0 ≤ (evaluateDrawing (1 / 2)).points ∧
    (evaluateDrawing 0).points ≠ (evaluateDrawing (3 / 4 : ℚ)).points :=
  evaluateDrawing_outcomes (1 / 2) (by norm_num) (by norm_num)

/-- Counterexample for C3: the white-background `isEmpty` demands exact
equality with 255, so the buffer `[(250, 255, 255, 255)]` — every
channel within ±5 of the white background — reports non-empty,
refuting the claimed tolerance biconditional (and its "deviation of
exactly 5 reports empty" half) for that variant. -/
theorem isEmptyWhite_tolerance_counterexample :
    specWithinTol5 255 255 255 [⟨250, 255, 255, 255⟩] ∧
    isEmptyWhite [⟨250, 255, 255, 255⟩] = false := by
  exact ⟨by decide, by decide⟩

/-- Claim C3 (amended): the ±5-tolerance biconditional holds for the
chalkboard variant against its background (45, 52, 54) — deviation
exactly 5 on every channel still reports empty, deviation 6 on one
channel reports non-empty — while the white-background variant reports
empty iff every pixel is exactly (255, 255, 255). -/
theorem isEmpty_variant_semantics (data : List Pixel) :
    (isEmptyChalk data = true ↔ specWithinTol5 45 52 54 data) ∧
    (isEmptyWhite data = true ↔ ∀ p ∈ data, p.r = 255 ∧ p.g = 255 ∧ p.b = 255) ∧
    isEmptyChalk [⟨50, 57, 59, 255⟩] = true ∧
    isEmptyChalk [⟨40, 47, 49, 255⟩] = true ∧
    isEmptyChalk [⟨51, 52, 54, 255⟩] = false ∧
    isEmptyChalk [⟨45, 52, 60, 255⟩] = false := by
  refine ⟨?_, ?_, by decide, by decide, by decide, by decide⟩
  · simp [isEmptyChalk, specWithinTol5, List.all_eq_true, and_assoc]
  · simp [isEmptyWhite, List.all_eq_true, and_assoc]

/-- Counterexample for C7: the offset-only `getPosition` of the
white-background variant disagrees with the specified scaled transform
as soon as the bounding rectangle is CSS-scaled: with a 600 × 400 pixel
buffer shown in a 300 × 200 rectangle at the origin, the event
(150, 100) maps to (150, 100) instead of the specified (300, 200). -/
theorem getPositionWhite_cssScale_counterexample :
    getPositionWhite dcWhite ⟨0, 0, 300, 200⟩ 150 100 ≠
      specScaledPosition dcWhite.width dcWhite.height ⟨0, 0, 300, 200⟩ 150 100 := by
  simp only [getPositionWhite, specScaledPosition, dcWhite, Prod.mk.injEq, ne_eq]
  norm_num

/-- Claim C7 (amended): the chalkboard (scaled) `getPosition` computes
exactly the specified transform for every event and rectangle, so it
stays correct under CSS scaling; the offset-only variant agrees with
the specified transform only when the rectangle's size equals the pixel
buffer's size. -/
theorem getPosition_variants (dc : DrawingCanvas) (rect : Rect) (ex ey : ℚ) :
    getPositionChalk dc rect ex ey =
      specScaledPosition dc.width dc.height rect ex ey ∧
    (rect.width = dc.width → rect.height = dc.height →
      rect.width ≠ 0 → rect.height ≠ 0 →
      getPositionWhite dc rect ex ey =
        specScaledPosition dc.width dc.height rect ex ey) := by
  refine ⟨rfl, fun hw hh hw0 hh0 => ?_⟩
  simp [getPositionWhite, specScaledPosition, ← hw, ← hh, div_self hw0, div_self hh0]

/-- Witness for C7: both transforms agree at an unscaled rectangle. -/
theorem getPosition_variants_witness :
    getPositionChalk dcWhite ⟨0, 0, 600, 400⟩ 150 100 =
      specScaledPosition dcWhite.width dcWhite.height ⟨0, 0, 600, 400⟩ 150 100 ∧
    getPositionWhite dcWhite ⟨0, 0, 600, 400⟩ 150 100 =
      specScaledPosition dcWhite.width dcWhite.height ⟨0, 0, 600, 400⟩ 150 100 :=
  ⟨(getPosition_variants dcWhite ⟨0, 0, 600, 400⟩ 150 100).1,
   (getPosition_variants dcWhite ⟨0, 0, 600, 400⟩ 150 100).2
     rfl rfl (by norm_num) (by norm_num)⟩

/-- With fuel left and an available word, one step of the selector
returns the indexed pick and inserts it into the used set. -/
theorem getRandomWordFuel_succ_of_ne (wl : WordList) (fuel : ℕ)
    (used : Finset String) (q : ℚ) (h : availableWords wl used ≠ []) :
    getRandomWordFuel wl (fuel + 1) used q =
      some ((availableWords wl used).getD
              (jsRandIdx q (availableWords wl used).length) "",
            insert ((availableWords wl used).getD
              (jsRandIdx q (availableWords wl used).length) "") used) := by
  rw [getRandomWordFuel]
  simp [List.length_eq_zero, h]

/-- With fuel left and an exhausted pool, one step of the selector
clears the used set and recurses. -/
theorem getRandomWordFuel_succ_of_empty (wl : WordList) (fuel : ℕ)
    (used : Finset String) (q : ℚ) (h : availableWords wl used = []) :
    getRandomWordFuel wl (fuel + 1) used q = getRandomWordFuel wl fuel ∅ q := by
  rw [getRandomWordFuel]
  simp [h]

/-- Filtering the fixed pool by an empty used set returns the whole
pool. -/
theorem availableWords_empty_used :
    availableWords initWordList ∅ = allWords := by decide

/-- The fixed pool is non-empty. -/
theorem allWords_ne_nil : allWords ≠ [] := by decide

/-- Claim C9: the word selector terminates from every state over the
fixed pool: fuel 2 always succeeds with a pool word, a single reset
re-exposes the whole (non-empty) pool as the candidate set, and any
extra fuel beyond 2 never changes the result — i.e. at most one
recursive retry ever occurs. -/
theorem getRandomWord_termination (used : Finset String) (q : ℚ)
    (h0 : 0 ≤ q) (h1 : q < 1) :
    (∃ w used', getRandomWordFuel initWordList 2 used q = some (w, used') ∧
      w ∈ allWords) ∧
    (availableWords initWordList used = [] →
      availableWords initWordList ∅ = allWords ∧ allWords ≠ []) ∧
    (∀ n, getRandomWordFuel initWordList (n + 2) used q =
      getRandomWordFuel initWordList 2 used q) := by
  have hfull : availableWords initWordList ∅ = allWords := availableWords_empty_used
  have hfullne : availableWords initWordList ∅ ≠ [] := by
    rw [hfull]; exact allWords_ne_nil
  have hsub : ∀ u : Finset String, ∀ w ∈ availableWords initWordList u,
      w ∈ allWords := by
    intro u w hw
    exact (List.mem_filter.mp hw).1
  have hpick : ∀ (u : Finset String), availableWords initWordList u ≠ [] →
      ∀ fuel, ∃ w used',
        getRandomWordFuel initWordList (fuel + 1) u q = some (w, used') ∧
        w ∈ allWords := by
    intro u hu fuel
    refine ⟨_, _, getRandomWordFuel_succ_of_ne initWordList fuel u q hu, ?_⟩
    refine hsub u _ (getD_mem_of_lt ?_)
    exact jsRandIdx_lt q _ h0 h1 (List.length_pos.mpr hu)
  refine ⟨?_, fun _ => ⟨hfull, allWords_ne_nil⟩, ?_⟩
  · by_cases h : availableWords initWordList used = []
    · rw [show (2 : ℕ) = 1 + 1 from rfl,
        getRandomWordFuel_succ_of_empty initWordList 1 used q h]
      exact hpick ∅ hfullne 0
    · exact hpick used h 1
  · intro n
    by_cases h : availableWords initWordList used = []
    · rw [getRandomWordFuel_succ_of_empty initWordList (n + 1) used q h,
        show (2 : ℕ) = 1 + 1 from rfl,
        getRandomWordFuel_succ_of_empty initWordList 1 used q h,
        getRandomWordFuel_succ_of_ne initWordList n ∅ q hfullne,
        getRandomWordFuel_succ_of_ne initWordList 0 ∅ q hfullne]
    · rw [show n + 2 = (n + 1) + 1 from rfl,
        getRandomWordFuel_succ_of_ne initWordList (n + 1) used q h,
        show (2 : ℕ) = 1 + 1 from rfl,
        getRandomWordFuel_succ_of_ne initWordList 1 used q h]

/-- Witness for C9: termination facts from the fresh state. -/
theorem getRandomWord_termination_witness :
    (∃ w used', getRandomWordFuel initWordList 2 ∅ 0 = some (w, used') ∧
      w ∈ allWords) ∧
    (availableWords initWordList ∅ = [] →
      availableWords initWordList ∅ = allWords ∧ allWords ≠ []) ∧
    (∀ n, getRandomWordFuel initWordList (n + 2) ∅ 0 =
      getRandomWordFuel initWordList 2 ∅ 0) :=
  getRandomWord_termination ∅ 0 (by norm_num) (by norm_num)

/-- No duplicates across the three tiers. -/
theorem allWords_nodup : allWords.Nodup := by decide

/-- The flattened pool has 30 distinct words. -/
theorem allWordsFin_card : allWordsFin.card = 30 := by
  rw [allWordsFin, List.toFinset_card_of_nodup allWords_nodup]
  decide

/-- One selector call before exhaustion: the pick is a fresh pool word
and is recorded in the used set. -/
theorem getRandomWord_step (used : Finset String) (q : ℚ)
    (h0 : 0 ≤ q) (h1 : q < 1) (hcard : used.card < 30) :
    ∃ w, getRandomWord initWordList used q = (w, insert w used) ∧
      w ∈ allWords ∧ w ∉ used := by
  have havail : availableWords initWordList used ≠ [] := by
    intro hemp
    rw [availableWords] at hemp
    have hall : ∀ w ∈ allWords, w ∈ used := by
      intro w hw
      have h2 := List.filter_eq_nil_iff.mp hemp w hw
      simpa using h2
    have hsuper : allWordsFin ⊆ used := by
      intro w hw
      exact hall w (List.mem_toFinset.mp hw)
    have hge := Finset.card_le_card hsuper
    rw [allWordsFin_card] at hge
    omega
  have hlen : 0 < (availableWords initWordList used).length :=
    List.length_pos.mpr havail
  have hidx := jsRandIdx_lt q _ h0 h1 hlen
  have hwmem : (availableWords initWordList used).getD
      (jsRandIdx q (availableWords initWordList used).length) "" ∈
      availableWords initWordList used := getD_mem_of_lt hidx
  rw [availableWords] at hwmem
  have hconj := List.mem_filter.mp hwmem
  refine ⟨_, ?_, hconj.1, by simpa using hconj.2⟩
  rw [getRandomWord, show (2 : ℕ) = 1 + 1 from rfl,
    getRandomWordFuel_succ_of_ne initWordList 1 used q havail]
  rfl

/-- Invariant of iterated selection: starting below exhaustion, the
picks are distinct fresh pool words, the used set grows by exactly the
picks, and one word is returned per draw. -/
theorem runSelect_invariant (qs : List ℚ) (used : Finset String)
    (hq : ∀ q ∈ qs, 0 ≤ q ∧ q < 1)
    (hsub : used ⊆ allWordsFin)
    (htot : used.card + qs.length ≤ 30) :
    (runSelect initWordList qs used).1.Nodup ∧
    (∀ w ∈ (runSelect initWordList qs used).1, w ∈ allWords ∧ w ∉ used) ∧
    (runSelect initWordList qs used).2 =
      used ∪ (runSelect initWordList qs used).1.toFinset ∧
    (runSelect initWordList qs used).1.length = qs.length := by
  induction qs generalizing used with
  | nil => simp [runSelect]
  | cons q qs ih =>
    obtain ⟨hq0, hq1⟩ := hq q (List.mem_cons_self q qs)
    have hcard : used.card < 30 := by
      simp only [List.length_cons] at htot
      omega
    obtain ⟨w, hstep, hwmem, hwused⟩ := getRandomWord_step used q hq0 hq1 hcard
    have hsub2 : insert w used ⊆ allWordsFin :=
      Finset.insert_subset (List.mem_toFinset.mpr hwmem) hsub
    have hcard2 : (insert w used).card = used.card + 1 :=
      Finset.card_insert_of_not_mem hwused
    have hq2 : ∀ x ∈ qs, 0 ≤ x ∧ x < 1 := fun x hx => hq x (List.mem_cons_of_mem q hx)
    have htot2 : (insert w used).card + qs.length ≤ 30 := by
      rw [hcard2]
      simp only [List.length_cons] at htot
      omega
    obtain ⟨ih1, ih2, ih3, ih4⟩ := ih (insert w used) hq2 hsub2 htot2
    simp only [runSelect, hstep]
    refine ⟨?_, ?_, ?_, ?_⟩
    · exact List.nodup_cons.mpr
        ⟨fun hin => (ih2 w hin).2 (Finset.mem_insert_self w used), ih1⟩
    · intro x hx
      rcases List.mem_cons.mp hx with rfl | hx2
      · exact ⟨hwmem, hwused⟩
      · obtain ⟨hxa, hxu⟩ := ih2 x hx2
        exact ⟨hxa, fun hxused => hxu (Finset.mem_insert_of_mem hxused)⟩
    · rw [ih3, List.toFinset_cons, Finset.insert_union, Finset.union_insert]
    · simp [ih4]

/-- After exhaustion, one selector call clears the used set, picks from
the full pool again, and records only the new pick. -/
theorem getRandomWord_after_exhaustion (q : ℚ) (h0 : 0 ≤ q) (h1 : q < 1)
    (used : Finset String) (hexh : availableWords initWordList used = []) :
    ∃ w, getRandomWord initWordList used q = (w, {w}) ∧ w ∈ allWords := by
  have hfullne : availableWords initWordList ∅ ≠ [] := by
    rw [availableWords_empty_used]
    exact allWords_ne_nil
  have hlen : 0 < (availableWords initWordList ∅).length :=
    List.length_pos.mpr hfullne
  have hidx := jsRandIdx_lt q _ h0 h1 hlen
  have hwmem : (availableWords initWordList ∅).getD
      (jsRandIdx q (availableWords initWordList ∅).length) "" ∈
      availableWords initWordList ∅ := getD_mem_of_lt hidx
  refine ⟨(availableWords initWordList ∅).getD
      (jsRandIdx q (availableWords initWordList ∅).length) "", ?_, ?_⟩
  · rw [getRandomWord, show (2 : ℕ) = 1 + 1 from rfl,
      getRandomWordFuel_succ_of_empty initWordList 1 used q hexh,
      getRandomWordFuel_succ_of_ne initWordList 0 ∅ q hfullne]
    simp
  · rw [availableWords_empty_used] at hwmem
    exact hwmem

/-- Claim C2: from a fresh manager, 30 selector calls (any random
draws in `[0, 1)`) return exactly the 30 pool words, each once — a
permutation of the pool — with the used set ending equal to the whole
pool; the 31st call clears the used set and returns some pool word,
recording only that word as used.  Every pick is added to the used set
(invariant of the cycle), so no word is permanently excluded. -/
theorem selectWord_exhaustion_cycle (qs : List ℚ) (qNext : ℚ)
    (hlen : qs.length = 30) (hq : ∀ q ∈ qs, 0 ≤ q ∧ q < 1)
    (h0 : 0 ≤ qNext) (h1 : qNext < 1) :
    (runSelect initWordList qs ∅).1.Perm allWords ∧
    (runSelect initWordList qs ∅).2 = allWordsFin ∧
    (∃ w, getRandomWord initWordList (runSelect initWordList qs ∅).2 qNext =
      (w, {w}) ∧ w ∈ allWords) := by
  obtain ⟨hnd, hmem, hun, hln⟩ :=
    runSelect_invariant qs ∅ hq (Finset.empty_subset _) (by simp [hlen])
  have hlens : (runSelect initWordList qs ∅).1.length = 30 := by rw [hln, hlen]
  have hsubfin : (runSelect initWordList qs ∅).1.toFinset ⊆ allWordsFin := by
    intro w hw
    exact List.mem_toFinset.mpr (hmem w (List.mem_toFinset.mp hw)).1
  have hcards : (runSelect initWordList qs ∅).1.toFinset.card = 30 := by
    rw [List.toFinset_card_of_nodup hnd, hlens]
  have hfineq : (runSelect initWordList qs ∅).1.toFinset = allWordsFin :=
    Finset.eq_of_subset_of_card_le hsubfin (by rw [hcards, allWordsFin_card])
  have hperm : (runSelect initWordList qs ∅).1.Perm allWords :=
    List.perm_of_nodup_nodup_toFinset_eq hnd allWords_nodup hfineq
  have hused : (runSelect initWordList qs ∅).2 = allWordsFin := by
    rw [hun, Finset.empty_union, hfineq]
  have hexh : availableWords initWordList allWordsFin = [] := by
    rw [availableWords]
    apply List.filter_eq_nil_iff.mpr
    intro w hw
    simpa [allWordsFin, allWords] using hw
  refine ⟨hperm, hused, ?_⟩
  rw [hused]
  exact getRandomWord_after_exhaustion qNext h0 h1 allWordsFin hexh

/-- Witness for C2: the cycle at 30 zero draws followed by one more. -/
theorem selectWord_exhaustion_cycle_witness :
    (runSelect initWordList (List.replicate 30 (0 : ℚ)) ∅).1.Perm allWords ∧
    (runSelect initWordList (List.replicate 30 (0 : ℚ)) ∅).2 = allWordsFin ∧
    (∃ w, getRandomWord initWordList
        (runSelect initWordList (List.replicate 30 (0 : ℚ)) ∅).2 0 =
      (w, {w}) ∧ w ∈ allWords) :=
  selectWord_exhaustion_cycle (List.replicate 30 (0 : ℚ)) 0 (by simp)
    (by
      intro q hq
      rw [List.eq_of_mem_replicate hq]
      norm_num)
    (by norm_num) (by norm_num)

/-- Every entry of the outcome table — and hence every evaluation, the
out-of-range default included — has non-negative points. -/
theorem evaluateDrawing_points_nonneg (q : ℚ) : 0 ≤ (evaluateDrawing q).points := by
  have htab : ∀ e ∈ scoresTable, 0 ≤ e.points := by decide
  rw [evaluateDrawing, List.getD_eq_getElem?_getD]
  cases h : scoresTable[jsRandIdx q scoresTable.length]? with
  | none => simp
  | some e =>
    simp only [Option.getD_some]
    exact htab e (List.getElem?_mem h)

/-- `submitAnswer` never changes the current word or the used set. -/
theorem submitAnswer_frame (st : GameManager) (ce : Bool) (q : ℚ) :
    (submitAnswer st ce q).1.currentWord = st.currentWord ∧
    (submitAnswer st ce q).1.usedWords = st.usedWords := by
  cases hw : st.currentWord <;> cases ce <;> simp [submitAnswer, hw]

/-- Claim C4: `score` starts at 0; a run of guard-passing submissions
adds exactly the sum of the evaluations' points; `nextWord`,
`skipWord` and guard-failing submissions leave `score` unchanged; and
no operation ever decreases `score`. -/
theorem score_accumulation :
    GameManager.init.score = 0 ∧
    (∀ (st : GameManager) (w : String) (qs : List ℚ), st.currentWord = some w →
      (runOps st (qs.map (GMOp.submit false))).score =
        st.score + (qs.map (fun q => (evaluateDrawing q).points)).sum) ∧
    (∀ st q, (nextWord st q).1.score = st.score) ∧
    (∀ st, (skipWord st).1.score = st.score) ∧
    (∀ st q, (submitAnswer st true q).1.score = st.score) ∧
    (∀ st q, st.currentWord = none → (submitAnswer st false q).1.score = st.score) ∧
    (∀ st op, st.score ≤ (stepOp st op).score) := by
  refine ⟨rfl, ?_, ?_, ?_, ?_, ?_, ?_⟩
  · intro st w qs hw
    induction qs generalizing st with
    | nil => simp [runOps]
    | cons q qs ih =>
      have hstep : (submitAnswer st false q).1 =
          { st with score := st.score + (evaluateDrawing q).points } := by
        simp [submitAnswer, hw]
      have hw2 : (submitAnswer st false q).1.currentWord = some w := by
        rw [hstep]
        exact hw
      simp only [List.map_cons, runOps, stepOp]
      rw [ih (submitAnswer st false q).1 hw2, hstep]
      simp only [List.map_cons, List.sum_cons]
      ring
  · intro st q
    simp [nextWord]
  · intro st
    cases hw : st.currentWord <;> simp [skipWord, hw]
  · intro st q
    cases hw : st.currentWord <;> simp [submitAnswer, hw]
  · intro st q hw
    simp [submitAnswer, hw]
  · intro st op
    cases op with
    | next q => simp [stepOp, nextWord]
    | skip => cases hw : st.currentWord <;> simp [stepOp, skipWord, hw]
    | submit ce q =>
      cases hw : st.currentWord with
      | none => simp [stepOp, submitAnswer, hw]
      | some w =>
        cases ce with
        | true => simp [stepOp, submitAnswer, hw]
        | false =>
          have := evaluateDrawing_points_nonneg q
          simp [stepOp, submitAnswer, hw]
          omega

/-- Witness for C4: one passing submission from a concrete active
state, and a guard-failing one from the fresh state. -/
theorem score_accumulation_witness :
    (runOps gmActive ([(0 : ℚ)].map (GMOp.submit false))).score =
      gmActive.score + ([(0 : ℚ)].map (fun q => (evaluateDrawing q).points)).sum ∧
    (submitAnswer GameManager.init false 0).1.score = GameManager.init.score :=
  ⟨score_accumulation.2.1 gmActive "猫" [0] rfl,
   score_accumulation.2.2.2.2.2.1 GameManager.init 0 rfl⟩
